import Mathlib

/-!
Verification of the recurrence engine of a task-manager backend
(`backend/services/recurrence.py`): rule parsing (`parse_recurrence_rule`),
next-occurrence calculation (`compute_next_due_date`) and instance
generation (`generate_next_instance`).

Python dates are modelled as year/month/day triples over the proleptic
Gregorian calendar; Python exceptions are modelled by `Except String`;
Python `None` by `Option.none`; naive datetimes by an integer count of
seconds (only differences and comparisons of datetimes occur in the code,
so any affine encoding is faithful).
-/

namespace Recurrence

/-- A calendar date, mirroring Python `datetime.date` (year, month, day). -/
structure Date where
  year : Nat
  month : Nat
  day : Nat
deriving DecidableEq, Repr

/-- Gregorian leap-year rule, as used by Python's `calendar` module. -/
def isLeapYear (y : Nat) : Bool :=
  (y % 4 == 0 && y % 100 != 0) || y % 400 == 0

/-- `calendar.monthrange(y, m)[1]`: number of days in month `m` of year `y`. -/
def daysInMonth (y m : Nat) : Nat :=
  if m = 2 then (if isLeapYear y then 29 else 28)
  else if m = 4 ∨ m = 6 ∨ m = 9 ∨ m = 11 then 30
  else 31

/-- The range invariants `datetime.date` enforces on construction. -/
def Date.Valid (d : Date) : Prop :=
  1 ≤ d.year ∧ 1 ≤ d.month ∧ d.month ≤ 12 ∧ 1 ≤ d.day ∧ d.day ≤ daysInMonth d.year d.month

instance (d : Date) : Decidable d.Valid := by
  unfold Date.Valid; infer_instance

/-- Python `date.__lt__`: lexicographic comparison of (year, month, day). -/
def Date.lt (a b : Date) : Prop :=
  a.year < b.year ∨ (a.year = b.year ∧ (a.month < b.month ∨ (a.month = b.month ∧ a.day < b.day)))

instance : LT Date := ⟨Date.lt⟩

instance (a b : Date) : Decidable (a < b) := by
  change Decidable (Date.lt a b); unfold Date.lt; infer_instance

/-- Days from 0001-01-01 to the start of year `y` (proleptic Gregorian),
as in `datetime`'s `_days_before_year`. -/
def daysBeforeYear (y : Nat) : Nat :=
  365 * (y - 1) + (y - 1) / 4 - (y - 1) / 100 + (y - 1) / 400

/-- Days from the start of year `y` to the start of month `m`,
as in `datetime`'s `_days_before_month`. -/
def daysBeforeMonth (y : Nat) : Nat → Nat
  | 0 => 0
  | 1 => 0
  | m + 2 => daysBeforeMonth y (m + 1) + daysInMonth y (m + 1)

/-- Python `date.toordinal()`: 0001-01-01 has ordinal 1. -/
def toOrdinal (d : Date) : Nat :=
  daysBeforeYear d.year + daysBeforeMonth d.year d.month + d.day

/-- Python `date.weekday()`: Monday = 0 .. Sunday = 6.
0001-01-01 (ordinal 1) was a Monday. -/
def Date.weekday (d : Date) : Nat :=
  (toOrdinal d + 6) % 7

/-- Successor date: the calendar day after `d`. -/
def nextDay (d : Date) : Date :=
  if d.day < daysInMonth d.year d.month then ⟨d.year, d.month, d.day + 1⟩
  else if d.month < 12 then ⟨d.year, d.month + 1, 1⟩
  else ⟨d.year + 1, 1, 1⟩

/-- Python `d + timedelta(days = k)` for `k ≥ 0`, as `k` iterations of
the calendar successor. -/
def addDays (d : Date) : Nat → Date
  | 0 => d
  | k + 1 => addDays (nextDay d) k

/-- The checked constructor `datetime.date(y, m, day)`: raises `ValueError`
when the month or day is out of range. The day argument is an `Int`
because the code can pass a negative `BYMONTHDAY` through. -/
def mkDate (y m : Nat) (day : Int) : Except String Date :=
  if 1 ≤ y ∧ 1 ≤ m ∧ m ≤ 12 ∧ 1 ≤ day ∧ day ≤ (daysInMonth y m : Int) then
    .ok ⟨y, m, day.toNat⟩
  else
    .error "ValueError: day is out of range for month"

/-- Core of Python `s.split(sep)` for a one-character separator, on
character lists: every occurrence separates, empty pieces are kept. -/
def splitChar (c : Char) : List Char → List (List Char)
  | [] => [[]]
  | x :: xs =>
    if x = c then [] :: splitChar c xs
    else
      match splitChar c xs with
      | [] => [[x]]
      | s :: ss => (x :: s) :: ss

/-- Python `s.split(sep)` for a one-character separator. -/
def pySplit (c : Char) (s : String) : List String :=
  (splitChar c s.data).map String.mk

/-- Python `s.split(sep, 1)` combined with the `sep in s` test: the text
before and after the first occurrence of the separator, or `none` when
the separator does not occur. -/
def splitFirstChar (c : Char) : List Char → Option (List Char × List Char)
  | [] => none
  | x :: xs =>
    if x = c then some ([], xs)
    else (splitFirstChar c xs).map (fun p => (x :: p.1, p.2))

/-- The whitespace characters Python `str.strip()` removes (ASCII ones;
the rule grammar is ASCII). -/
def isPySpace (c : Char) : Bool :=
  c = ' ' ∨ c = '\t' ∨ c = '\n' ∨ c = '\r' ∨ c = '\x0b' ∨ c = '\x0c'

def dropLeadingSpace : List Char → List Char
  | [] => []
  | c :: cs => if isPySpace c then dropLeadingSpace cs else c :: cs

/-- Python `s.strip()`: whitespace removed from both ends. -/
def pyStrip (s : String) : String :=
  String.mk ((dropLeadingSpace ((dropLeadingSpace s.data).reverse)).reverse)

/-- ASCII uppercase of one character, as Python `str.upper` acts on the
ASCII inputs of the rule grammar. -/
def upChar (c : Char) : Char :=
  if 'a' ≤ c ∧ c ≤ 'z' then Char.ofNat (c.toNat - 32) else c

/-- Python `s.upper()` on ASCII text. -/
def pyUpper (s : String) : String :=
  String.mk (s.data.map upChar)

/-- Numeric value of a decimal digit character. -/
def digitVal (c : Char) : Option Nat :=
  if c.isDigit then some (c.toNat - 48) else none

/-- Continuation of Python `int()` digit parsing: after the first digit,
single underscores are permitted between digits. -/
def pyIntCore (acc : Nat) : List Char → Option Nat
  | [] => some acc
  | '_' :: c :: cs =>
    match digitVal c with
    | some v => pyIntCore (acc * 10 + v) cs
    | none => none
  | c :: cs =>
    match digitVal c with
    | some v => pyIntCore (acc * 10 + v) cs
    | none => none

/-- Python `int()` digit part: must start with a digit. -/
def pyIntDigits : List Char → Option Nat
  | [] => none
  | c :: cs =>
    match digitVal c with
    | some v => pyIntCore v cs
    | none => none

/-- Python `int(s)` for a decimal string: optional surrounding whitespace,
optional sign, then digits (with `_` separators). `none` models the
`ValueError` raised on any other input. -/
def pyInt (s : String) : Option Int :=
  match (pyStrip s).data with
  | '+' :: rest => (pyIntDigits rest).map Int.ofNat
  | '-' :: rest => (pyIntDigits rest).map (fun n => -(n : Int))
  | rest => (pyIntDigits rest).map Int.ofNat

/-- Decimal reading of an all-digit character list. -/
def decDigits (acc : Nat) : List Char → Option Nat
  | [] => some acc
  | c :: cs =>
    match digitVal c with
    | some v => decDigits (acc * 10 + v) cs
    | none => none

/-- Python `date.fromisoformat` restricted to the `YYYY-MM-DD` layout the
rule grammar uses: four-digit year, two-digit month and day, validated by
the `date` constructor. Any other shape is a `ValueError`. -/
def fromIsoformat (s : String) : Except String Date :=
  match pySplit '-' s with
  | [ys, ms, ds] =>
    if ys.data.length = 4 ∧ ms.data.length = 2 ∧ ds.data.length = 2 then
      match decDigits 0 ys.data, decDigits 0 ms.data, decDigits 0 ds.data with
      | some y, some m, some d => mkDate y m (d : Int)
      | _, _, _ => .error "ValueError: Invalid isoformat string"
    else .error "ValueError: Invalid isoformat string"
  | _ => .error "ValueError: Invalid isoformat string"

/-- `DAY_MAP` from the source: two-letter weekday codes to ordinals. -/
def DAY_MAP : List (String × Nat) :=
  [("MO", 0), ("TU", 1), ("WE", 2), ("TH", 3), ("FR", 4), ("SA", 5), ("SU", 6)]

/-- `RecurrenceConfig` dataclass from the source. -/
structure RecurrenceConfig where
  freq : String
  by_day : Option (List String) := none
  by_month_day : Option Int := none
  -- the source names this field `until`, a reserved word in Lean
  until_date : Option Date := none
deriving DecidableEq, Repr

/-- Store a key/value pair in the parts dictionary, overwriting any
earlier binding of the same key (Python `dict` assignment). -/
def insertAssoc (ps : List (String × String)) (k v : String) : List (String × String) :=
  match ps with
  | [] => [(k, v)]
  | (k1, v1) :: rest => if k1 = k then (k, v) :: rest else (k1, v1) :: insertAssoc rest k v

/-- The `parts` dictionary built by `parse_recurrence_rule`'s loop:
split the rule on `;`, keep segments containing `=`, split each at the
first `=`, strip and uppercase the key, strip the value. -/
def parseParts (rule : String) : List (String × String) :=
  (pySplit ';' rule).foldl
    (fun ps seg =>
      match splitFirstChar '=' seg.data with
      | none => ps
      | some (k, v) => insertAssoc ps (pyUpper (pyStrip (String.mk k))) (pyStrip (String.mk v)))
    []

/-- `parse_recurrence_rule` from the source. A `ValueError` from `int()`
on `BYMONTHDAY` or from `date.fromisoformat` on `UNTIL` propagates. -/
def parse_recurrence_rule (rule : String) : Except String RecurrenceConfig := do
  let parts := parseParts rule
  let freq := (parts.lookup "FREQ").getD "DAILY"
  let by_day :=
    match parts.lookup "BYDAY" with
    | some v => some (((pySplit ',' v).map pyStrip).filter (fun d => d ≠ ""))
    | none => none
  let by_month_day ←
    match parts.lookup "BYMONTHDAY" with
    | some v =>
      match pyInt v with
      | some n => Except.ok (some n)
      | none => Except.error "ValueError: invalid literal for int"
    | none => Except.ok none
  let until_date ←
    match parts.lookup "UNTIL" with
    | some v => (fromIsoformat v).map some
    | none => Except.ok none
  return { freq := freq, by_day := by_day, by_month_day := by_month_day, until_date := until_date }

/-- The `for target in target_days` loop: first list element strictly
greater than `w`, if any. -/
def findFirstGreater (w : Nat) : List Nat → Option Nat
  | [] => none
  | t :: ts => if w < t then some t else findFirstGreater w ts

/-- The frequency dispatch of `compute_next_due_date` (lines 75–113):
the candidate next date before the `UNTIL` check. `.ok none` is the
`return None` of the unrecognized-frequency branch; `.error` models the
`IndexError` from `target_days[0]` on an empty list and the `ValueError`
from `date()` on an invalid day. -/
def computeCandidate (config : RecurrenceConfig) (base : Date) : Except String (Option Date) :=
  if config.freq = "DAILY" then
    .ok (some (addDays base 1))
  else if config.freq = "WEEKLY" then
    match config.by_day with
    | some bd =>
      if bd ≠ [] then
        let target_days := List.insertionSort (· ≤ ·) (bd.filterMap (fun d => DAY_MAP.lookup d))
        let w := base.weekday
        match findFirstGreater w target_days with
        | some target => .ok (some (addDays base (target - w)))
        | none =>
          match target_days with
          | [] => .error "IndexError: list index out of range"
          | t0 :: _ => .ok (some (addDays base (7 - w + t0)))
      else .ok (some (addDays base 7))
    | none => .ok (some (addDays base 7))
  else if config.freq = "MONTHLY" then
    let target_day : Int :=
      match config.by_month_day with
      | some n => if n ≠ 0 then n else (base.day : Int)
      | none => (base.day : Int)
    let nm := if base.month = 12 then (1, base.year + 1) else (base.month + 1, base.year)
    let max_day := daysInMonth nm.2 nm.1
    let actual_day : Int := min target_day (max_day : Int)
    (mkDate nm.2 nm.1 actual_day).map some
  else
    .ok none

/-- `compute_next_due_date` from the source. `today` is the injected
clock standing for `date.today()`, used only when `current_due` is
absent. -/
def compute_next_due_date (current_due : Option Date) (today : Date) (rule : String) :
    Except String (Option Date) := do
  let config ← parse_recurrence_rule rule
  let base := current_due.getD today
  let cand ← computeCandidate config base
  match cand with
  | none => return none
  | some next_date =>
    match config.until_date with
    | some u => if u < next_date then return none else return (some next_date)
    | none => return (some next_date)

/-- The fields of a `Task` record that the recurrence engine reads or
writes. Identifiers are abstracted to naturals. -/
structure Task where
  id : Nat
  title : String
  description : String
  user_id : String
  priority : String
  tags : List String
  due_date : Option Date := none
  recurrence_rule : Option String := none
  recurrence_group_id : Option Nat := none
  completed : Bool := false
deriving DecidableEq, Repr

/-- `ReminderStatus.PENDING.value` from the models module. -/
def ReminderStatusPENDING : String := "pending"

/-- The fields of a `Reminder` record the engine reads or writes. A naive
datetime is a count of seconds; `none` models a null trigger time. -/
structure Reminder where
  task_id : Nat
  user_id : String
  trigger_at : Option Int := none
  status : String := ReminderStatusPENDING
deriving DecidableEq, Repr

/-- `datetime(d.year, d.month, d.day)`: midnight of `d` as a datetime,
in the seconds encoding. -/
def midnight (d : Date) : Int :=
  86400 * (toOrdinal d : Int)

/-- The reminder-inheritance loop of `generate_next_instance`
(lines 156–171): for each parent reminder, when the source task has a due
date and the reminder a trigger time, carry the offset from the old due
date forward to `next_due` and keep the clone only when the recomputed
trigger is strictly after `now` (`datetime.utcnow()`). -/
def inheritReminders (due_date : Option Date) (next_due : Date) (user_id : String)
    (now : Int) (new_task_id : Nat) : List Reminder → List Reminder
  | [] => []
  | r :: rs =>
    match due_date, r.trigger_at with
    | some dd, some trig =>
      let offset := midnight dd - trig
      let new_trigger := midnight next_due - offset
      if now < new_trigger then
        { task_id := new_task_id, user_id := user_id,
          trigger_at := some new_trigger, status := ReminderStatusPENDING } ::
          inheritReminders due_date next_due user_id now new_task_id rs
      else inheritReminders due_date next_due user_id now new_task_id rs
    | _, _ => inheritReminders due_date next_due user_id now new_task_id rs

/-- `generate_next_instance` from the source. `parent_reminders` is the
result of the reminder query for `task.id`; `today` is the injected
`date.today()` clock, `now` the injected `datetime.utcnow()` clock;
`new_id` is the identifier the persistence layer assigns to the new task
and `fresh_gid` the `uuid4()` drawn when the source has no group id.
Returns the new task together with the cloned reminders. -/
def generate_next_instance (task : Task) (parent_reminders : List Reminder)
    (today : Date) (now : Int) (new_id fresh_gid : Nat) :
    Except String (Option (Task × List Reminder)) := do
  match task.recurrence_rule with
  | none => return none
  | some rule =>
    -- Python `if not task.recurrence_rule` also treats the empty string as absent
    if rule = "" then return none
    else
      let next? ← compute_next_due_date task.due_date today rule
      match next? with
      | none => return none
      | some next_due =>
        let new_task : Task :=
          { id := new_id
            title := task.title
            description := task.description
            user_id := task.user_id
            priority := task.priority
            -- `list(task.tags) if task.tags else []` copies the list; as a value it is unchanged
            tags := task.tags
            due_date := some next_due
            recurrence_rule := task.recurrence_rule
            recurrence_group_id := some (task.recurrence_group_id.getD fresh_gid)
            completed := false }
        let new_reminders :=
          inheritReminders task.due_date next_due task.user_id now new_id parent_reminders
        return some (new_task, new_reminders)

/-! ### Basic calendar lemmas -/

theorem Date.lt_def (a b : Date) :
    a < b ↔
      a.year < b.year ∨
        (a.year = b.year ∧ (a.month < b.month ∨ (a.month = b.month ∧ a.day < b.day))) :=
  Iff.rfl

theorem daysInMonth_pos (y m : Nat) : 1 ≤ daysInMonth y m := by
  unfold daysInMonth
  split
  · split <;> omega
  · split <;> omega

theorem daysInMonth_le (y m : Nat) : daysInMonth y m ≤ 31 := by
  unfold daysInMonth
  split
  · split <;> omega
  · split <;> omega

theorem Date.lt_trans' {a b c : Date} (h1 : a < b) (h2 : b < c) : a < c := by
  rw [Date.lt_def] at h1 h2 ⊢
  omega

theorem nextDay_valid {d : Date} (h : d.Valid) : (nextDay d).Valid := by
  obtain ⟨h1, h2, h3, h4, h5⟩ := h
  unfold nextDay
  split
  next hc => exact ⟨h1, h2, h3, by dsimp only; omega, by dsimp only; omega⟩
  next hc =>
    split
    next hm =>
      exact ⟨h1, by dsimp only; omega, by dsimp only; omega, by dsimp only; omega,
        daysInMonth_pos _ _⟩
    next hm =>
      exact ⟨by dsimp only; omega, by dsimp only; omega, by dsimp only; omega,
        by dsimp only; omega, daysInMonth_pos _ _⟩

theorem lt_nextDay {d : Date} (h : d.Valid) : d < nextDay d := by
  obtain ⟨h1, h2, h3, h4, h5⟩ := h
  unfold nextDay
  split
  next hc => rw [Date.lt_def]; dsimp only; omega
  next hc =>
    split
    next hm => rw [Date.lt_def]; dsimp only; omega
    next hm => rw [Date.lt_def]; dsimp only; omega

theorem addDays_valid {d : Date} (h : d.Valid) (k : Nat) : (addDays d k).Valid := by
  induction k generalizing d with
  | zero => exact h
  | succ k ih => exact ih (nextDay_valid h)

theorem lt_addDays {d : Date} (h : d.Valid) {k : Nat} (hk : 1 ≤ k) : d < addDays d k := by
  induction k generalizing d with
  | zero => omega
  | succ k ih =>
    show d < addDays (nextDay d) k
    rcases Nat.eq_zero_or_pos k with h0 | hpos
    · subst h0; exact lt_nextDay h
    · exact Date.lt_trans' (lt_nextDay h) (ih (nextDay_valid h) hpos)

theorem weekday_lt_seven (d : Date) : d.weekday < 7 :=
  Nat.mod_lt _ (by omega)

/-! ### List lemmas for the BYDAY weekday search -/

theorem findFirstGreater_gt {w t : Nat} :
    ∀ {l : List Nat}, findFirstGreater w l = some t → w < t
  | [], h => by simp [findFirstGreater] at h
  | x :: xs, h => by
    unfold findFirstGreater at h
    split at h
    next hx => cases h; assumption
    next hx => exact findFirstGreater_gt h

/-- Minimum of a list of naturals, `none` on the empty list. Stands for
the claim's phrase "the smallest configured ordinal". -/
def listMin : List Nat → Option Nat
  | [] => none
  | t :: ts =>
    some (match listMin ts with
          | none => t
          | some m => min t m)

theorem listMin_le {t : Nat} :
    ∀ {l : List Nat}, (∀ x ∈ l, t ≤ x) → ∀ m, listMin l = some m → t ≤ m
  | [], _, m, hm => by simp [listMin] at hm
  | x :: xs, h, m, hm => by
    unfold listMin at hm
    have hx : t ≤ x := h x (List.mem_cons_self x xs)
    have hxs : ∀ y ∈ xs, t ≤ y := fun y hy => h y (List.mem_cons_of_mem x hy)
    cases hmin : listMin xs with
    | none => rw [hmin] at hm; simp at hm; omega
    | some m2 =>
      rw [hmin] at hm
      have := listMin_le hxs m2 hmin
      simp at hm
      omega

theorem listMin_sorted_cons {t : Nat} {ts : List Nat}
    (h : (t :: ts).Sorted (· ≤ ·)) : listMin (t :: ts) = some t := by
  rw [List.sorted_cons] at h
  unfold listMin
  cases hmin : listMin ts with
  | none => rfl
  | some m =>
    have := listMin_le h.1 m hmin
    simp [Nat.min_eq_left this]

theorem listMin_perm : ∀ {l l' : List Nat}, l.Perm l' → listMin l = listMin l' := by
  intro l l' h
  induction h with
  | nil => rfl
  | cons x h ih => unfold listMin; rw [ih]
  | swap x y l =>
    show listMin (y :: x :: l) = listMin (x :: y :: l)
    simp only [listMin]
    cases hmin : listMin l <;> simp [hmin] <;> omega
  | trans h1 h2 ih1 ih2 => exact ih1.trans ih2

/-- On a list sorted ascending, the scan for the first element strictly
greater than `w` returns exactly the minimum of the elements strictly
greater than `w`. -/
theorem findFirstGreater_eq_listMin {w : Nat} :
    ∀ {l : List Nat}, l.Sorted (· ≤ ·) →
      findFirstGreater w l = listMin (l.filter (fun t => w < t))
  | [], _ => rfl
  | x :: xs, h => by
    rw [List.sorted_cons] at h
    unfold findFirstGreater
    by_cases hw : w < x
    · simp only [hw, if_true]
      have hfilter : (x :: xs).filter (fun t => decide (w < t)) =
          x :: xs.filter (fun t => decide (w < t)) := by
        simp [List.filter_cons, hw]
      rw [hfilter]
      unfold listMin
      cases hmin : listMin (xs.filter (fun t => decide (w < t))) with
      | none => rfl
      | some m =>
        have hmem : ∀ y ∈ xs.filter (fun t => decide (w < t)), x ≤ y := by
          intro y hy
          exact h.1 y (List.mem_of_mem_filter hy)
        have := listMin_le hmem m hmin
        simp [Nat.min_eq_left this]
    · simp only [hw, if_false]
      have hfilter : (x :: xs).filter (fun t => decide (w < t)) =
          xs.filter (fun t => decide (w < t)) := by
        simp [List.filter_cons, hw]
      rw [hfilter]
      exact findFirstGreater_eq_listMin h.2

theorem listMin_eq_none : ∀ {l : List Nat}, listMin l = none ↔ l = []
  | [] => by simp [listMin]
  | x :: xs => by simp [listMin]

/-- The selection rule the spec describes for `WEEKLY` with `BYDAY`:
the smallest configured ordinal strictly greater than the reference
weekday, if any. -/
def smallestGreater (ts : List Nat) (w : Nat) : Option Nat :=
  listMin (ts.filter (fun t => w < t))

/-! ### Bridging lemmas between the calculator and its candidate step -/

theorem compute_parse_error {rule e : String}
    (hp : parse_recurrence_rule rule = .error e) (cur : Option Date) (today : Date) :
    compute_next_due_date cur today rule = .error e := by
  unfold compute_next_due_date
  rw [hp]
  rfl

theorem compute_eq_of_parse {rule : String} {cfg : RecurrenceConfig}
    (hp : parse_recurrence_rule rule = .ok cfg) (cur : Option Date) (today : Date) :
    compute_next_due_date cur today rule =
      (computeCandidate cfg (cur.getD today)).bind (fun cand =>
        match cand with
        | none => .ok none
        | some next_date =>
          match cfg.until_date with
          | some u => if u < next_date then .ok none else .ok (some next_date)
          | none => .ok (some next_date)) := by
  unfold compute_next_due_date
  rw [hp]
  show (computeCandidate cfg ((cur.getD today))).bind _ = _
  cases computeCandidate cfg (cur.getD today) with
  | error e => rfl
  | ok cand =>
    cases cand with
    | none => rfl
    | some nd =>
      cases cfg.until_date with
      | none => rfl
      | some u => by_cases hu : u < nd <;> simp [Except.bind, hu, pure, Except.pure]

/-- A returned next date always comes unchanged from the candidate step. -/
theorem candidate_of_compute_ok {cur : Option Date} {today : Date} {rule : String} {nd : Date}
    (h : compute_next_due_date cur today rule = .ok (some nd)) :
    ∃ cfg, parse_recurrence_rule rule = .ok cfg ∧
      computeCandidate cfg (cur.getD today) = .ok (some nd) := by
  cases hp : parse_recurrence_rule rule with
  | error e => rw [compute_parse_error hp cur today] at h; exact absurd h (by simp)
  | ok cfg =>
    refine ⟨cfg, rfl, ?_⟩
    rw [compute_eq_of_parse hp cur today] at h
    cases hc : computeCandidate cfg (cur.getD today) with
    | error e => rw [hc] at h; exact absurd h (by simp [Except.bind])
    | ok cand =>
      rw [hc] at h
      cases cand with
      | none => exact absurd h (by simp [Except.bind])
      | some c =>
        cases hu : cfg.until_date with
        | none => simp [Except.bind, hu] at h; simp [h]
        | some u =>
          simp only [Except.bind, hu] at h
          by_cases hlt : u < c
          · simp [hlt] at h
          · simp [hlt] at h; simp [h]

/-- Characterization of the `WEEKLY`-with-`BYDAY` branch of the
candidate step: the sorted scan of the source equals the claim's
smallest-greater selection, with week wrap-around to the smallest
configured ordinal, and an `IndexError` when no code is recognized. -/
theorem computeCandidate_weekly_byday {cfg : RecurrenceConfig} {bd : List String} (b : Date)
    (hfreq : cfg.freq = "WEEKLY") (hbd : cfg.by_day = some bd) (hne : bd ≠ []) :
    computeCandidate cfg b =
      (match smallestGreater (bd.filterMap (fun c => DAY_MAP.lookup c)) b.weekday with
       | some t => .ok (some (addDays b (t - b.weekday)))
       | none =>
         match listMin (bd.filterMap (fun c => DAY_MAP.lookup c)) with
         | some t0 => .ok (some (addDays b (7 - b.weekday + t0)))
         | none => .error "IndexError: list index out of range") := by
  unfold computeCandidate
  rw [hfreq, hbd]
  rw [if_neg (by decide : ¬("WEEKLY" = "DAILY"))]
  rw [if_pos (rfl : "WEEKLY" = "WEEKLY")]
  dsimp only
  rw [if_pos hne]
  have hperm : (List.insertionSort (· ≤ ·) (bd.filterMap (fun c => DAY_MAP.lookup c))).Perm
      (bd.filterMap (fun c => DAY_MAP.lookup c)) :=
    List.perm_insertionSort _ _
  have hsorted : (List.insertionSort (· ≤ ·) (bd.filterMap (fun c => DAY_MAP.lookup c))).Sorted
      (· ≤ ·) :=
    List.sorted_insertionSort _ _
  rw [findFirstGreater_eq_listMin hsorted]
  have hmin_filter : listMin ((List.insertionSort (· ≤ ·)
        (bd.filterMap (fun c => DAY_MAP.lookup c))).filter (fun t => b.weekday < t)) =
      smallestGreater (bd.filterMap (fun c => DAY_MAP.lookup c)) b.weekday :=
    listMin_perm (hperm.filter _)
  rw [hmin_filter]
  cases hsg : smallestGreater (bd.filterMap (fun c => DAY_MAP.lookup c)) b.weekday with
  | some t => rfl
  | none =>
    cases hsort_list : List.insertionSort (· ≤ ·) (bd.filterMap (fun c => DAY_MAP.lookup c)) with
    | nil =>
      have : bd.filterMap (fun c => DAY_MAP.lookup c) = [] := by
        have := hperm
        rw [hsort_list] at this
        exact (List.Perm.nil_eq this).symm
      rw [this]
      rfl
    | cons t0 rest =>
      have hmin : listMin (bd.filterMap (fun c => DAY_MAP.lookup c)) = some t0 := by
        have h1 : listMin (t0 :: rest) = some t0 := by
          apply listMin_sorted_cons
          rw [← hsort_list]
          exact hsorted
        rw [← h1]
        apply listMin_perm
        rw [← hsort_list]
        exact hperm.symm
      rw [hmin]

theorem listMin_mem : ∀ {l : List Nat} {m : Nat}, listMin l = some m → m ∈ l
  | [], m, h => by simp [listMin] at h
  | x :: xs, m, h => by
    unfold listMin at h
    cases hmin : listMin xs with
    | none =>
      rw [hmin] at h
      simp only [Option.some.injEq] at h
      simp [← h]
    | some m2 =>
      rw [hmin] at h
      simp only [Option.some.injEq] at h
      rcases Nat.le_total x m2 with hle | hle
      · rw [Nat.min_eq_left hle] at h
        simp [← h]
      · rw [Nat.min_eq_right hle] at h
        subst h
        exact List.mem_cons_of_mem x (listMin_mem hmin)

/-- Characterization of the `MONTHLY` branch of the candidate step. -/
theorem computeCandidate_monthly {cfg : RecurrenceConfig} (b : Date)
    (hfreq : cfg.freq = "MONTHLY") :
    computeCandidate cfg b =
      (mkDate (if b.month = 12 then b.year + 1 else b.year)
        (if b.month = 12 then 1 else b.month + 1)
        (min (match cfg.by_month_day with
              | some n => if n ≠ 0 then n else (b.day : Int)
              | none => (b.day : Int))
          ((daysInMonth (if b.month = 12 then b.year + 1 else b.year)
            (if b.month = 12 then 1 else b.month + 1) : Nat) : Int))).map some := by
  unfold computeCandidate
  rw [hfreq]
  rw [if_neg (by decide : ¬("MONTHLY" = "DAILY"))]
  rw [if_neg (by decide : ¬("MONTHLY" = "WEEKLY"))]
  rw [if_pos (rfl : "MONTHLY" = "MONTHLY")]
  by_cases hm : b.month = 12 <;> simp [hm]

/-- Any candidate date the calculator produces is strictly later than
the reference date. -/
theorem candidate_strictly_later {cfg : RecurrenceConfig} {b nd : Date}
    (hv : b.Valid) (h : computeCandidate cfg b = .ok (some nd)) : b < nd := by
  by_cases hd : cfg.freq = "DAILY"
  · unfold computeCandidate at h
    rw [if_pos hd] at h
    simp only [Except.ok.injEq, Option.some.injEq] at h
    exact h ▸ lt_addDays hv (by omega)
  · by_cases hw : cfg.freq = "WEEKLY"
    · cases hbd : cfg.by_day with
      | none =>
        unfold computeCandidate at h
        rw [if_neg hd, if_pos hw, hbd] at h
        simp only [Except.ok.injEq, Option.some.injEq] at h
        exact h ▸ lt_addDays hv (by omega)
      | some bd =>
        by_cases hne : bd = []
        · subst hne
          unfold computeCandidate at h
          rw [if_neg hd, if_pos hw, hbd] at h
          simp only [ne_eq, not_true_eq_false, if_false, Except.ok.injEq,
            Option.some.injEq] at h
          exact h ▸ lt_addDays hv (by omega)
        · rw [computeCandidate_weekly_byday b hw hbd hne] at h
          cases hsg : smallestGreater (bd.filterMap (fun c => DAY_MAP.lookup c)) b.weekday with
          | some t =>
            rw [hsg] at h
            simp only [Except.ok.injEq, Option.some.injEq] at h
            have ht : b.weekday < t := by
              have hmem := listMin_mem hsg
              have := List.of_mem_filter hmem
              simpa using this
            exact h ▸ lt_addDays hv (by omega)
          | none =>
            rw [hsg] at h
            cases hlm : listMin (bd.filterMap (fun c => DAY_MAP.lookup c)) with
            | none => rw [hlm] at h; exact absurd h (by simp)
            | some t0 =>
              rw [hlm] at h
              simp only [Except.ok.injEq, Option.some.injEq] at h
              have hwk := weekday_lt_seven b
              exact h ▸ lt_addDays hv (by omega)
    · by_cases hmo : cfg.freq = "MONTHLY"
      · by_cases hm12 : b.month = 12
        · rw [computeCandidate_monthly b hmo] at h
          simp only [hm12, if_true] at h
          unfold mkDate at h
          split at h
          · simp only [Except.map, Except.ok.injEq, Option.some.injEq] at h
            rw [Date.lt_def, ← h]
            dsimp only
            omega
          · exact absurd h (by simp [Except.map])
        · rw [computeCandidate_monthly b hmo] at h
          simp only [hm12, if_false] at h
          unfold mkDate at h
          split at h
          · simp only [Except.map, Except.ok.injEq, Option.some.injEq] at h
            rw [Date.lt_def, ← h]
            dsimp only
            omega
          · exact absurd h (by simp [Except.map])
      · unfold computeCandidate at h
        rw [if_neg hd, if_neg hw, if_neg hmo] at h
        exact absurd h (by simp)

/-- Composition of the calculator from its parse and candidate stages,
in the common case of no `UNTIL` cutoff. -/
theorem compute_concrete (rule : String) (cfg : RecurrenceConfig) (cur : Option Date)
    (today base nd : Date)
    (hp : parse_recurrence_rule rule = .ok cfg)
    (hb : cur.getD today = base)
    (hc : computeCandidate cfg base = .ok (some nd))
    (hu : cfg.until_date = none) :
    compute_next_due_date cur today rule = .ok (some nd) := by
  rw [compute_eq_of_parse hp cur today, hb, hc]
  simp [Except.bind, hu]

theorem mkDate_ok {y m : Nat} {day : Int}
    (h1 : 1 ≤ y) (h2 : 1 ≤ m) (h3 : m ≤ 12) (h4 : 1 ≤ day)
    (h5 : day ≤ (daysInMonth y m : Int)) :
    mkDate y m day = .ok ⟨y, m, day.toNat⟩ := by
  unfold mkDate
  rw [if_pos ⟨h1, h2, h3, h4, h5⟩]

theorem mkDate_error {y m : Nat} {day : Int}
    (h : ¬(1 ≤ y ∧ 1 ≤ m ∧ m ≤ 12 ∧ 1 ≤ day ∧ day ≤ (daysInMonth y m : Int))) :
    mkDate y m day = .error "ValueError: day is out of range for month" := by
  unfold mkDate
  rw [if_neg h]

/-- A candidate-stage error propagates out of the calculator. -/
theorem compute_concrete_error (rule : String) (cfg : RecurrenceConfig) (cur : Option Date)
    (today base : Date) (e : String)
    (hp : parse_recurrence_rule rule = .ok cfg)
    (hb : cur.getD today = base)
    (hc : computeCandidate cfg base = .error e) :
    compute_next_due_date cur today rule = .error e := by
  rw [compute_eq_of_parse hp cur today, hb, hc]
  rfl

/-- A successful candidate stage always yields a successful (non-error)
calculator result, whatever the `UNTIL` configuration. -/
theorem compute_ok_of_candidate_ok {rule : String} {cfg : RecurrenceConfig}
    {cur : Option Date} {today : Date} {cand : Option Date}
    (hp : parse_recurrence_rule rule = .ok cfg)
    (hc : computeCandidate cfg (cur.getD today) = .ok cand) :
    ∃ r, compute_next_due_date cur today rule = .ok r := by
  rw [compute_eq_of_parse hp cur today, hc]
  cases cand with
  | none => exact ⟨none, rfl⟩
  | some nd =>
    cases hu : cfg.until_date with
    | none => exact ⟨some nd, by simp [Except.bind, hu]⟩
    | some u =>
      by_cases hlt : u < nd
      · exact ⟨none, by simp [Except.bind, hu, hlt]⟩
      · exact ⟨some nd, by simp [Except.bind, hu, hlt]⟩

/-! ### Claim theorems -/

/-- C9: for every reference date and rule string for which
`compute_next_due_date` returns a date (rather than absence or an error),
the returned date is strictly later than the reference date, across all
frequencies and `BYDAY`/`BYMONTHDAY`/`UNTIL` combinations. -/
theorem next_date_strictly_later (cur : Option Date) (today : Date) (rule : String)
    (nd : Date) (hv : (cur.getD today).Valid)
    (h : compute_next_due_date cur today rule = .ok (some nd)) :
    cur.getD today < nd := by
  obtain ⟨cfg, _, hc⟩ := candidate_of_compute_ok h
  exact candidate_strictly_later hv hc

theorem next_date_strictly_later_witness :
    ((some (⟨2025, 6, 5⟩ : Date)).getD ⟨2025, 1, 1⟩).Valid ∧
      (some (⟨2025, 6, 5⟩ : Date)).getD ⟨2025, 1, 1⟩ < ⟨2025, 6, 6⟩ :=
  ⟨by decide,
    next_date_strictly_later (some ⟨2025, 6, 5⟩) ⟨2025, 1, 1⟩ "FREQ=DAILY" ⟨2025, 6, 6⟩
      (by decide) (by rfl)⟩

/-- C1: for a `WEEKLY` rule with a `BYDAY` set, `compute_next_due_date`
picks, among the configured weekday ordinals (MO=0..SU=6), the smallest
ordinal strictly greater than the reference's weekday and advances the
reference by the difference; when none is strictly greater it wraps to
the next week, advancing by `7 - weekday + smallestConfiguredOrdinal`
days. In particular with `BYDAY=MO,WE,FR` the successor of Thursday
2025-06-05 is Friday 2025-06-06 and the successor of Friday 2025-06-06
is Monday 2025-06-09 (no `UNTIL` cutoff applying). -/
theorem weekly_byday_next (d today : Date) (rule : String) (cfg : RecurrenceConfig)
    (bd : List String)
    (hp : parse_recurrence_rule rule = .ok cfg)
    (hfreq : cfg.freq = "WEEKLY")
    (hbd : cfg.by_day = some bd)
    (hne : bd ≠ [])
    (huntil : cfg.until_date = none) :
    (∀ t, smallestGreater (bd.filterMap (fun c => DAY_MAP.lookup c)) d.weekday = some t →
        compute_next_due_date (some d) today rule = .ok (some (addDays d (t - d.weekday)))) ∧
    (smallestGreater (bd.filterMap (fun c => DAY_MAP.lookup c)) d.weekday = none →
      ∀ t0, listMin (bd.filterMap (fun c => DAY_MAP.lookup c)) = some t0 →
        compute_next_due_date (some d) today rule =
          .ok (some (addDays d (7 - d.weekday + t0)))) ∧
    compute_next_due_date (some ⟨2025, 6, 5⟩) today "FREQ=WEEKLY;BYDAY=MO,WE,FR" =
      .ok (some ⟨2025, 6, 6⟩) ∧
    compute_next_due_date (some ⟨2025, 6, 6⟩) today "FREQ=WEEKLY;BYDAY=MO,WE,FR" =
      .ok (some ⟨2025, 6, 9⟩) := by
  have hbase : compute_next_due_date (some d) today rule =
      (computeCandidate cfg d).bind (fun cand =>
        match cand with
        | none => .ok none
        | some next_date =>
          match cfg.until_date with
          | some u => if u < next_date then .ok none else .ok (some next_date)
          | none => .ok (some next_date)) :=
    compute_eq_of_parse hp (some d) today
  rw [computeCandidate_weekly_byday d hfreq hbd hne] at hbase
  have hex1 : compute_next_due_date (some ⟨2025, 6, 5⟩) today "FREQ=WEEKLY;BYDAY=MO,WE,FR" =
      .ok (some ⟨2025, 6, 6⟩) :=
    compute_concrete _ ⟨"WEEKLY", some ["MO", "WE", "FR"], none, none⟩ _ today ⟨2025, 6, 5⟩ _
      (by rfl) rfl (by rfl) rfl
  have hex2 : compute_next_due_date (some ⟨2025, 6, 6⟩) today "FREQ=WEEKLY;BYDAY=MO,WE,FR" =
      .ok (some ⟨2025, 6, 9⟩) :=
    compute_concrete _ ⟨"WEEKLY", some ["MO", "WE", "FR"], none, none⟩ _ today ⟨2025, 6, 6⟩ _
      (by rfl) rfl (by rfl) rfl
  refine ⟨?_, ?_, hex1, hex2⟩
  · intro t ht
    rw [ht] at hbase
    rw [hbase, huntil]
    simp [Except.bind]
  · intro hnone t0 ht0
    rw [hnone, ht0] at hbase
    rw [hbase, huntil]
    simp [Except.bind]

theorem weekly_byday_next_witness :
    compute_next_due_date (some ⟨2025, 6, 5⟩) ⟨2025, 1, 1⟩ "FREQ=WEEKLY;BYDAY=MO,WE,FR" =
      .ok (some (addDays ⟨2025, 6, 5⟩ (4 - Date.weekday ⟨2025, 6, 5⟩))) :=
  (weekly_byday_next ⟨2025, 6, 5⟩ ⟨2025, 1, 1⟩ "FREQ=WEEKLY;BYDAY=MO,WE,FR"
      { freq := "WEEKLY", by_day := some ["MO", "WE", "FR"], by_month_day := none,
        until_date := none }
      ["MO", "WE", "FR"] (by rfl) rfl rfl (by decide) rfl).1 4 (by rfl)

/-- The claim's description of the `MONTHLY` step: move to the
immediately following calendar month (December rolls to January of the
next year); the day-of-month is `BYMONTHDAY` when given, else the
reference's own day, clamped to the last valid day of the target
month. -/
def monthlySpecNext (d : Date) (bmd : Option Int) : Date :=
  let ny := if d.month = 12 then d.year + 1 else d.year
  let nm := if d.month = 12 then 1 else d.month + 1
  let target : Int :=
    match bmd with
    | some n => n
    | none => (d.day : Int)
  ⟨ny, nm, (min target ((daysInMonth ny nm : Nat) : Int)).toNat⟩

/-- C2: for every `MONTHLY` rule, `compute_next_due_date` advances to the
immediately following calendar month and returns the date whose
day-of-month is `BYMONTHDAY` if given (here in its normal range `≥ 1`),
else the reference's own day-of-month, clamped to the last valid day of
the target month; e.g. from 2025-01-15 with `BYMONTHDAY=31` it returns
2025-02-28 (no `UNTIL` cutoff applying). -/
theorem monthly_next (d today : Date) (rule : String) (cfg : RecurrenceConfig)
    (hv : d.Valid)
    (hp : parse_recurrence_rule rule = .ok cfg)
    (hfreq : cfg.freq = "MONTHLY")
    (hbmd : ∀ n, cfg.by_month_day = some n → 1 ≤ n)
    (huntil : cfg.until_date = none) :
    compute_next_due_date (some d) today rule =
      .ok (some (monthlySpecNext d cfg.by_month_day)) ∧
    compute_next_due_date (some ⟨2025, 1, 15⟩) today "FREQ=MONTHLY;BYMONTHDAY=31" =
      .ok (some ⟨2025, 2, 28⟩) := by
  obtain ⟨hy1, hm1, hm2, hd1, hd2⟩ := hv
  have hny1 : 1 ≤ (if d.month = 12 then d.year + 1 else d.year) := by split <;> omega
  have hnm1 : 1 ≤ (if d.month = 12 then 1 else d.month + 1) := by split <;> omega
  have hnm2 : (if d.month = 12 then 1 else d.month + 1) ≤ 12 := by split <;> omega
  have hmaxpos := daysInMonth_pos (if d.month = 12 then d.year + 1 else d.year)
    (if d.month = 12 then 1 else d.month + 1)
  constructor
  · rw [compute_eq_of_parse hp (some d) today, show (some d).getD today = d from rfl,
      computeCandidate_monthly d hfreq]
    cases hb : cfg.by_month_day with
    | none =>
      dsimp only
      rw [mkDate_ok hny1 hnm1 hnm2 (by omega) (by omega)]
      simp [Except.map, Except.bind, huntil, monthlySpecNext]
    | some n =>
      have hn1 : 1 ≤ n := hbmd n hb
      dsimp only
      rw [if_pos (show n ≠ 0 by omega)]
      rw [mkDate_ok hny1 hnm1 hnm2 (by omega) (by omega)]
      simp [Except.map, Except.bind, huntil, monthlySpecNext]
  · exact compute_concrete _ ⟨"MONTHLY", none, some 31, none⟩ _ today ⟨2025, 1, 15⟩ _
      (by rfl) rfl (by rfl) rfl

theorem monthly_next_witness :
    compute_next_due_date (some ⟨2025, 1, 15⟩) ⟨2025, 1, 1⟩ "FREQ=MONTHLY;BYMONTHDAY=31" =
      .ok (some ⟨2025, 2, 28⟩) := by
  have h := (monthly_next ⟨2025, 1, 15⟩ ⟨2025, 1, 1⟩ "FREQ=MONTHLY;BYMONTHDAY=31"
    ⟨"MONTHLY", none, some 31, none⟩ (by decide) (by rfl) rfl
    (by intro n hn; simp at hn; omega) rfl).1
  rw [h]
  rfl

/-- The claim's description of reminder carry-forward: for a source
reminder with a non-null trigger time (status not considered), the offset
of the trigger from the old due-date midnight is reapplied to the new
due-date midnight; the clone is a `PENDING` reminder bound to the new
task, kept exactly when its trigger is strictly later than the
generation-time clock, else dropped. -/
def specClonedReminder (dd next_due : Date) (now : Int) (new_task_id : Nat) (uid : String)
    (r : Reminder) : Option Reminder :=
  match r.trigger_at with
  | none => none
  | some trig =>
    let offset := midnight dd - trig
    let newTrigger := midnight next_due - offset
    if now < newTrigger then
      some { task_id := new_task_id, user_id := uid, trigger_at := some newTrigger,
             status := ReminderStatusPENDING }
    else none

theorem bind_ok_eq {ε α β : Type} (a : α) (f : α → Except ε β) :
    (Except.ok a >>= f) = f a := rfl

theorem pure_eq_ok {ε α : Type} (a : α) : (pure a : Except ε α) = Except.ok a := rfl

theorem inheritReminders_eq_filterMap (dd next_due : Date) (uid : String) (now : Int)
    (nid : Nat) :
    ∀ l : List Reminder, inheritReminders (some dd) next_due uid now nid l =
      l.filterMap (specClonedReminder dd next_due now nid uid)
  | [] => rfl
  | r :: rs => by
    unfold inheritReminders
    cases ht : r.trigger_at with
    | none =>
      simp only [ht, List.filterMap_cons, specClonedReminder]
      exact inheritReminders_eq_filterMap dd next_due uid now nid rs
    | some trig =>
      simp only [ht, List.filterMap_cons, specClonedReminder]
      by_cases hf : now < midnight next_due - (midnight dd - trig)
      · simp only [hf, if_true]
        rw [inheritReminders_eq_filterMap dd next_due uid now nid rs]
      · simp only [hf, if_false]
        exact inheritReminders_eq_filterMap dd next_due uid now nid rs

/-- C3: when generating the successor of a source task that has a due
date, every reminder attached to the source — regardless of its status —
with a non-null trigger time is carried forward preserving its offset
from the due-date midnight, and emitted as a `PENDING` reminder bound to
the new task exactly when the recomputed trigger is strictly later than
the generation-time clock; otherwise it is dropped silently with no
error. -/
theorem reminder_carry_forward (task : Task) (rs : List Reminder) (today : Date) (now : Int)
    (new_id fresh_gid : Nat) (rule : String) (dd : Date) (nt : Task) (nrs : List Reminder)
    (hrule : task.recurrence_rule = some rule) (hne : rule ≠ "")
    (hdd : task.due_date = some dd)
    (hgen : generate_next_instance task rs today now new_id fresh_gid = .ok (some (nt, nrs))) :
    ∃ nd, compute_next_due_date (some dd) today rule = .ok (some nd) ∧
      nrs = rs.filterMap (specClonedReminder dd nd now new_id task.user_id) := by
  unfold generate_next_instance at hgen
  rw [hrule] at hgen
  dsimp only at hgen
  rw [if_neg hne, hdd] at hgen
  cases hcc : compute_next_due_date (some dd) today rule with
  | error e =>
    rw [hcc] at hgen
    have hgen2 : (Except.error e : Except String (Option (Task × List Reminder))) =
        .ok (some (nt, nrs)) := hgen
    exact absurd hgen2 (by simp)
  | ok nd? =>
    rw [hcc, bind_ok_eq] at hgen
    cases nd? with
    | none =>
      have hgen2 : (Except.ok none : Except String (Option (Task × List Reminder))) =
          .ok (some (nt, nrs)) := hgen
      exact absurd hgen2 (by simp)
    | some nd =>
      refine ⟨nd, rfl, ?_⟩
      dsimp only at hgen
      rw [pure_eq_ok] at hgen
      simp only [Except.ok.injEq, Option.some.injEq, Prod.mk.injEq] at hgen
      rw [← hgen.2]
      exact inheritReminders_eq_filterMap dd nd task.user_id now new_id rs

theorem reminder_carry_forward_witness :
    ∃ nd, compute_next_due_date (some ⟨2025, 6, 10⟩) ⟨2025, 6, 1⟩ "FREQ=DAILY" =
        .ok (some nd) ∧
      [⟨2, "alice", some 63885229200, ReminderStatusPENDING⟩] =
        List.filterMap
          (specClonedReminder ⟨2025, 6, 10⟩ nd 0 2
            (Task.user_id ⟨1, "Water plants", "desc", "alice", "high", ["home"],
              some ⟨2025, 6, 10⟩, some "FREQ=DAILY", some 7, true⟩))
          [⟨1, "alice", some 63885142800, "cancelled"⟩] :=
  reminder_carry_forward
    ⟨1, "Water plants", "desc", "alice", "high", ["home"], some ⟨2025, 6, 10⟩,
      some "FREQ=DAILY", some 7, true⟩
    [⟨1, "alice", some 63885142800, "cancelled"⟩]
    ⟨2025, 6, 1⟩ 0 2 9 "FREQ=DAILY" ⟨2025, 6, 10⟩
    ⟨2, "Water plants", "desc", "alice", "high", ["home"], some ⟨2025, 6, 11⟩,
      some "FREQ=DAILY", some 7, false⟩
    [⟨2, "alice", some 63885229200, ReminderStatusPENDING⟩]
    rfl (by decide) rfl (by rfl)

/-- C6: the generated successor inherits the source's title, description,
owner, priority, recurrence rule and tags list value, carries the
computed next date as its due date, starts uncompleted, and keeps the
source's recurrence group id — a fresh one is assigned only when the
source had none. -/
theorem successor_inherits_fields (task : Task) (rs : List Reminder) (today : Date)
    (now : Int) (new_id fresh_gid : Nat) (rule : String) (nd : Date)
    (hrule : task.recurrence_rule = some rule) (hne : rule ≠ "")
    (hnext : compute_next_due_date task.due_date today rule = .ok (some nd)) :
    ∃ nrs, generate_next_instance task rs today now new_id fresh_gid =
      .ok (some ({ id := new_id, title := task.title, description := task.description,
                   user_id := task.user_id, priority := task.priority, tags := task.tags,
                   due_date := some nd, recurrence_rule := task.recurrence_rule,
                   recurrence_group_id := some (task.recurrence_group_id.getD fresh_gid),
                   completed := false }, nrs)) ∧
      (∀ g, task.recurrence_group_id = some g →
        task.recurrence_group_id.getD fresh_gid = g) ∧
      (task.recurrence_group_id = none →
        task.recurrence_group_id.getD fresh_gid = fresh_gid) := by
  refine ⟨inheritReminders task.due_date nd task.user_id now new_id rs, ?_, ?_, ?_⟩
  · unfold generate_next_instance
    rw [hrule]
    dsimp only
    rw [if_neg hne, hnext, bind_ok_eq]
    dsimp only
    rw [pure_eq_ok]
  · intro g hg; rw [hg]; rfl
  · intro hg; rw [hg]; rfl

theorem successor_inherits_fields_witness :
    ∃ nrs, generate_next_instance
        ⟨1, "Report", "monthly report", "bob", "low", ["work"], some ⟨2025, 1, 31⟩,
          some "FREQ=MONTHLY", none, true⟩ [] ⟨2025, 1, 1⟩ 0 5 11 =
      .ok (some ({ id := 5,
                   title := Task.title ⟨1, "Report", "monthly report", "bob", "low", ["work"],
                     some ⟨2025, 1, 31⟩, some "FREQ=MONTHLY", none, true⟩,
                   description := Task.description ⟨1, "Report", "monthly report", "bob", "low",
                     ["work"], some ⟨2025, 1, 31⟩, some "FREQ=MONTHLY", none, true⟩,
                   user_id := Task.user_id ⟨1, "Report", "monthly report", "bob", "low",
                     ["work"], some ⟨2025, 1, 31⟩, some "FREQ=MONTHLY", none, true⟩,
                   priority := Task.priority ⟨1, "Report", "monthly report", "bob", "low",
                     ["work"], some ⟨2025, 1, 31⟩, some "FREQ=MONTHLY", none, true⟩,
                   tags := Task.tags ⟨1, "Report", "monthly report", "bob", "low", ["work"],
                     some ⟨2025, 1, 31⟩, some "FREQ=MONTHLY", none, true⟩,
                   due_date := some ⟨2025, 2, 28⟩,
                   recurrence_rule := Task.recurrence_rule ⟨1, "Report", "monthly report",
                     "bob", "low", ["work"], some ⟨2025, 1, 31⟩, some "FREQ=MONTHLY", none, true⟩,
                   recurrence_group_id := some ((Task.recurrence_group_id ⟨1, "Report",
                     "monthly report", "bob", "low", ["work"], some ⟨2025, 1, 31⟩,
                     some "FREQ=MONTHLY", none, true⟩).getD 11),
                   completed := false }, nrs)) ∧
      (∀ g, Task.recurrence_group_id ⟨1, "Report", "monthly report", "bob", "low", ["work"],
          some ⟨2025, 1, 31⟩, some "FREQ=MONTHLY", none, true⟩ = some g →
        (Task.recurrence_group_id ⟨1, "Report", "monthly report", "bob", "low", ["work"],
          some ⟨2025, 1, 31⟩, some "FREQ=MONTHLY", none, true⟩).getD 11 = g) ∧
      (Task.recurrence_group_id ⟨1, "Report", "monthly report", "bob", "low", ["work"],
          some ⟨2025, 1, 31⟩, some "FREQ=MONTHLY", none, true⟩ = none →
        (Task.recurrence_group_id ⟨1, "Report", "monthly report", "bob", "low", ["work"],
          some ⟨2025, 1, 31⟩, some "FREQ=MONTHLY", none, true⟩).getD 11 = 11) :=
  successor_inherits_fields
    ⟨1, "Report", "monthly report", "bob", "low", ["work"], some ⟨2025, 1, 31⟩,
      some "FREQ=MONTHLY", none, true⟩
    [] ⟨2025, 1, 1⟩ 0 5 11 "FREQ=MONTHLY" ⟨2025, 2, 28⟩ rfl (by decide) (by rfl)

/-- C4 counterexample: for the present but unrecognized value
`FREQ=YEARLY` the parsed frequency is the raw token `YEARLY` (not one of
the three enumerated values) and `compute_next_due_date` returns absence
rather than the `DAILY` result reference + 1 day. -/
theorem freq_unrecognized_counterexample :
    parse_recurrence_rule "FREQ=YEARLY" = .ok ⟨"YEARLY", none, none, none⟩ ∧
    compute_next_due_date (some ⟨2025, 6, 5⟩) ⟨2025, 1, 1⟩ "FREQ=YEARLY" = .ok none ∧
    compute_next_due_date (some ⟨2025, 6, 5⟩) ⟨2025, 1, 1⟩ "FREQ=YEARLY" ≠
      .ok (some ⟨2025, 6, 6⟩) := by
  have h : compute_next_due_date (some ⟨2025, 6, 5⟩) ⟨2025, 1, 1⟩ "FREQ=YEARLY" =
      .ok none := by rfl
  exact ⟨by rfl, h, by rw [h]; simp⟩

/-- C4 amended: a present but unrecognized `FREQ` value is kept verbatim
in the parsed configuration and `compute_next_due_date` returns absence
for it (treats the recurrence as ended) instead of behaving like
`FREQ=DAILY`; the `DAILY` default applies only when `FREQ` is absent. -/
theorem freq_unrecognized_returns_none (cur : Option Date) (today : Date) (rule : String)
    (cfg : RecurrenceConfig)
    (hp : parse_recurrence_rule rule = .ok cfg)
    (h1 : cfg.freq ≠ "DAILY") (h2 : cfg.freq ≠ "WEEKLY") (h3 : cfg.freq ≠ "MONTHLY") :
    compute_next_due_date cur today rule = .ok none := by
  rw [compute_eq_of_parse hp cur today]
  unfold computeCandidate
  rw [if_neg h1, if_neg h2, if_neg h3]
  rfl

theorem freq_unrecognized_returns_none_witness :
    compute_next_due_date (some ⟨2025, 6, 5⟩) ⟨2025, 1, 1⟩ "FREQ=YEARLY" = .ok none :=
  freq_unrecognized_returns_none (some ⟨2025, 6, 5⟩) ⟨2025, 1, 1⟩ "FREQ=YEARLY"
    ⟨"YEARLY", none, none, none⟩ (by rfl) (by decide) (by decide) (by decide)

/-- C5: when an `UNTIL` date is configured and the computed candidate
next date is strictly later than it, the calculator returns absence and
never that candidate, without raising an error; in particular
`FREQ=DAILY;UNTIL=2025-06-10` from reference 2025-06-10 yields absence
(the candidate 2025-06-11 exceeds `UNTIL`). -/
theorem until_exceeded_returns_none (cur : Option Date) (today : Date) (rule : String)
    (cfg : RecurrenceConfig) (u cand : Date)
    (hp : parse_recurrence_rule rule = .ok cfg)
    (hu : cfg.until_date = some u)
    (hc : computeCandidate cfg (cur.getD today) = .ok (some cand))
    (hgt : u < cand) :
    compute_next_due_date cur today rule = .ok none ∧
    compute_next_due_date cur today rule ≠ .ok (some cand) ∧
    compute_next_due_date (some ⟨2025, 6, 10⟩) ⟨2025, 1, 1⟩ "FREQ=DAILY;UNTIL=2025-06-10" =
      .ok none := by
  have h : compute_next_due_date cur today rule = .ok none := by
    rw [compute_eq_of_parse hp cur today, hc]
    simp [Except.bind, hu, hgt]
  exact ⟨h, by rw [h]; simp, by rfl⟩

theorem until_exceeded_returns_none_witness :
    compute_next_due_date (some ⟨2025, 6, 10⟩) ⟨2025, 1, 1⟩ "FREQ=DAILY;UNTIL=2025-06-10" =
      .ok none ∧
    compute_next_due_date (some ⟨2025, 6, 10⟩) ⟨2025, 1, 1⟩ "FREQ=DAILY;UNTIL=2025-06-10" ≠
      .ok (some ⟨2025, 6, 11⟩) :=
  let h := until_exceeded_returns_none (some ⟨2025, 6, 10⟩) ⟨2025, 1, 1⟩
    "FREQ=DAILY;UNTIL=2025-06-10" ⟨"DAILY", none, none, some ⟨2025, 6, 10⟩⟩
    ⟨2025, 6, 10⟩ ⟨2025, 6, 11⟩ (by rfl) rfl (by rfl) (by decide)
  ⟨h.1, h.2.1⟩

/-- C7 counterexample: with a `BYDAY` list containing no recognized code
at all, `compute_next_due_date` raises an `IndexError` (from indexing the
empty recognized-ordinal list) instead of completing without error. -/
theorem byday_no_recognized_code_counterexample :
    compute_next_due_date (some ⟨2025, 6, 5⟩) ⟨2025, 1, 1⟩ "FREQ=WEEKLY;BYDAY=XX" =
      .error "IndexError: list index out of range" :=
  compute_concrete_error "FREQ=WEEKLY;BYDAY=XX" ⟨"WEEKLY", some ["XX"], none, none⟩
    (some ⟨2025, 6, 5⟩) ⟨2025, 1, 1⟩ ⟨2025, 6, 5⟩ _ (by rfl) rfl (by rfl)

/-- C7 amended: unknown `BYDAY` codes are silently filtered out and the
calculation completes without error for every reference date provided at
least one recognized code remains; when the `BYDAY` list is non-empty but
contains no recognized code, the calculator raises an `IndexError`
instead. -/
theorem byday_unknown_codes (d today : Date) (rule : String) (cfg : RecurrenceConfig)
    (bd : List String)
    (hp : parse_recurrence_rule rule = .ok cfg)
    (hfreq : cfg.freq = "WEEKLY")
    (hbd : cfg.by_day = some bd) :
    (bd.filterMap (fun c => DAY_MAP.lookup c) ≠ [] →
      ∃ r, compute_next_due_date (some d) today rule = .ok r) ∧
    (bd ≠ [] → bd.filterMap (fun c => DAY_MAP.lookup c) = [] →
      compute_next_due_date (some d) today rule =
        .error "IndexError: list index out of range") := by
  constructor
  · intro hts
    have hne : bd ≠ [] := by
      intro hnil
      rw [hnil] at hts
      simp at hts
    have hchar := computeCandidate_weekly_byday ((some d).getD today) hfreq hbd hne
    cases hsg : smallestGreater (bd.filterMap (fun c => DAY_MAP.lookup c))
        ((some d).getD today).weekday with
    | some t =>
      rw [hsg] at hchar
      exact compute_ok_of_candidate_ok hp hchar
    | none =>
      rw [hsg] at hchar
      cases hlm : listMin (bd.filterMap (fun c => DAY_MAP.lookup c)) with
      | none => exact absurd (listMin_eq_none.mp hlm) hts
      | some t0 =>
        rw [hlm] at hchar
        exact compute_ok_of_candidate_ok hp hchar
  · intro hne hts
    have hchar := computeCandidate_weekly_byday ((some d).getD today) hfreq hbd hne
    rw [hts] at hchar
    have hsg : smallestGreater ([] : List Nat) ((some d).getD today).weekday = none := rfl
    rw [hsg] at hchar
    exact compute_concrete_error rule cfg (some d) today ((some d).getD today) _ hp rfl hchar

theorem byday_unknown_codes_witness :
    (∃ r, compute_next_due_date (some ⟨2025, 6, 5⟩) ⟨2025, 1, 1⟩
        "FREQ=WEEKLY;BYDAY=MO,XX" = .ok r) ∧
    compute_next_due_date (some ⟨2025, 6, 6⟩) ⟨2025, 1, 1⟩ "FREQ=WEEKLY;BYDAY=XX" =
      .error "IndexError: list index out of range" :=
  ⟨(byday_unknown_codes ⟨2025, 6, 5⟩ ⟨2025, 1, 1⟩ "FREQ=WEEKLY;BYDAY=MO,XX"
      ⟨"WEEKLY", some ["MO", "XX"], none, none⟩ ["MO", "XX"] (by rfl) rfl rfl).1
      (by decide),
    (byday_unknown_codes ⟨2025, 6, 6⟩ ⟨2025, 1, 1⟩ "FREQ=WEEKLY;BYDAY=XX"
      ⟨"WEEKLY", some ["XX"], none, none⟩ ["XX"] (by rfl) rfl rfl).2
      (by decide) (by decide)⟩

/-- C8 counterexample: for `BYMONTHDAY=35` (outside [1,31]) from
reference 2025-01-15 the calculator does not raise a date-construction
error; the `min` clamp corrects the value to the month's last day and
2025-02-28 is returned. -/
theorem bymonthday_out_of_range_counterexample :
    compute_next_due_date (some ⟨2025, 1, 15⟩) ⟨2025, 1, 1⟩ "FREQ=MONTHLY;BYMONTHDAY=35" =
      .ok (some ⟨2025, 2, 28⟩) ∧
    compute_next_due_date (some ⟨2025, 1, 15⟩) ⟨2025, 1, 1⟩ "FREQ=MONTHLY;BYMONTHDAY=35" ≠
      .error "ValueError: day is out of range for month" := by
  have h : compute_next_due_date (some ⟨2025, 1, 15⟩) ⟨2025, 1, 1⟩
      "FREQ=MONTHLY;BYMONTHDAY=35" = .ok (some ⟨2025, 2, 28⟩) :=
    compute_concrete "FREQ=MONTHLY;BYMONTHDAY=35" ⟨"MONTHLY", none, some 35, none⟩
      (some ⟨2025, 1, 15⟩) ⟨2025, 1, 1⟩ ⟨2025, 1, 15⟩ ⟨2025, 2, 28⟩ (by rfl) rfl (by rfl) rfl
  exact ⟨h, by rw [h]; simp⟩

/-- C8 amended: a `BYMONTHDAY` value above 31 is corrected by the `min`
clamp to the target month's last day and a normal date is returned (no
error); a value of 0 is treated as if `BYMONTHDAY` were absent (Python
falsiness), falling back to the reference's own day clamped; only a
negative value reaches the date constructor uncorrected and raises the
construction error. -/
theorem bymonthday_out_of_range (d today : Date) (rule : String) (cfg : RecurrenceConfig)
    (n : Int)
    (hv : d.Valid)
    (hp : parse_recurrence_rule rule = .ok cfg)
    (hfreq : cfg.freq = "MONTHLY")
    (hbmd : cfg.by_month_day = some n)
    (huntil : cfg.until_date = none) :
    (31 < n →
      compute_next_due_date (some d) today rule =
        .ok (some ⟨if d.month = 12 then d.year + 1 else d.year,
                   if d.month = 12 then 1 else d.month + 1,
                   daysInMonth (if d.month = 12 then d.year + 1 else d.year)
                     (if d.month = 12 then 1 else d.month + 1)⟩)) ∧
    (n < 0 →
      compute_next_due_date (some d) today rule =
        .error "ValueError: day is out of range for month") ∧
    (n = 0 →
      compute_next_due_date (some d) today rule =
        .ok (some ⟨if d.month = 12 then d.year + 1 else d.year,
                   if d.month = 12 then 1 else d.month + 1,
                   min d.day (daysInMonth (if d.month = 12 then d.year + 1 else d.year)
                     (if d.month = 12 then 1 else d.month + 1))⟩)) := by
  obtain ⟨hy1, hm1, hm2, hd1, hd2⟩ := hv
  have hbase : (some d).getD today = d := rfl
  have hny1 : 1 ≤ (if d.month = 12 then d.year + 1 else d.year) := by split <;> omega
  have hnm1 : 1 ≤ (if d.month = 12 then 1 else d.month + 1) := by split <;> omega
  have hnm2 : (if d.month = 12 then 1 else d.month + 1) ≤ 12 := by split <;> omega
  have hmaxpos := daysInMonth_pos (if d.month = 12 then d.year + 1 else d.year)
    (if d.month = 12 then 1 else d.month + 1)
  have hmaxle := daysInMonth_le (if d.month = 12 then d.year + 1 else d.year)
    (if d.month = 12 then 1 else d.month + 1)
  refine ⟨?_, ?_, ?_⟩
  · intro h31
    have hn0 : n ≠ 0 := by omega
    rw [compute_eq_of_parse hp (some d) today, hbase, computeCandidate_monthly d hfreq, hbmd]
    dsimp only
    rw [if_pos hn0]
    rw [min_eq_right (by omega : ((daysInMonth (if d.month = 12 then d.year + 1 else d.year)
      (if d.month = 12 then 1 else d.month + 1) : Nat) : Int) ≤ n)]
    rw [mkDate_ok hny1 hnm1 hnm2 (by omega) (by omega)]
    have htn : ((daysInMonth (if d.month = 12 then d.year + 1 else d.year)
        (if d.month = 12 then 1 else d.month + 1) : Nat) : Int).toNat =
        daysInMonth (if d.month = 12 then d.year + 1 else d.year)
          (if d.month = 12 then 1 else d.month + 1) := by omega
    rw [htn]
    simp [Except.map, Except.bind, huntil]
  · intro hneg
    have hn0 : n ≠ 0 := by omega
    rw [compute_eq_of_parse hp (some d) today, hbase, computeCandidate_monthly d hfreq, hbmd]
    dsimp only
    rw [if_pos hn0]
    rw [min_eq_left (by omega : n ≤ ((daysInMonth (if d.month = 12 then d.year + 1 else d.year)
      (if d.month = 12 then 1 else d.month + 1) : Nat) : Int))]
    rw [mkDate_error (by intro hcon; omega)]
    rfl
  · intro h0
    subst h0
    rw [compute_eq_of_parse hp (some d) today, hbase, computeCandidate_monthly d hfreq, hbmd]
    dsimp only
    rw [if_neg (by decide : ¬((0 : Int) ≠ 0))]
    rw [mkDate_ok hny1 hnm1 hnm2 (by omega) (by omega)]
    have htn : (min ((d.day : Nat) : Int) ((daysInMonth
        (if d.month = 12 then d.year + 1 else d.year)
        (if d.month = 12 then 1 else d.month + 1) : Nat) : Int)).toNat =
        min d.day (daysInMonth (if d.month = 12 then d.year + 1 else d.year)
          (if d.month = 12 then 1 else d.month + 1)) := by omega
    rw [htn]
    simp [Except.map, Except.bind, huntil]

theorem bymonthday_out_of_range_witness :
    compute_next_due_date (some ⟨2025, 1, 15⟩) ⟨2025, 1, 1⟩ "FREQ=MONTHLY;BYMONTHDAY=35" =
      .ok (some ⟨2025, 2, 28⟩) := by
  have h := (bymonthday_out_of_range ⟨2025, 1, 15⟩ ⟨2025, 1, 1⟩ "FREQ=MONTHLY;BYMONTHDAY=35"
    ⟨"MONTHLY", none, some 35, none⟩ 35 (by decide) (by rfl) rfl rfl rfl).1 (by decide)
  rw [h]
  rfl

/-- C10: `parse_recurrence_rule` raises a value-conversion error whenever
the rule carries a `BYMONTHDAY` segment whose value is not a decimal
integer; by contrast an unknown `FREQ` value or `BYDAY` code parses
without error. -/
theorem bymonthday_malformed_raises (rule v : String)
    (hv : (parseParts rule).lookup "BYMONTHDAY" = some v)
    (hbad : pyInt v = none) :
    parse_recurrence_rule rule = .error "ValueError: invalid literal for int" ∧
    parse_recurrence_rule "FREQ=XYZ;BYDAY=QQ" = .ok ⟨"XYZ", some ["QQ"], none, none⟩ := by
  constructor
  · unfold parse_recurrence_rule
    dsimp only
    rw [hv]
    dsimp only
    rw [hbad]
    rfl
  · rfl

theorem bymonthday_malformed_raises_witness :
    parse_recurrence_rule "FREQ=MONTHLY;BYMONTHDAY=XX" =
      .error "ValueError: invalid literal for int" :=
  (bymonthday_malformed_raises "FREQ=MONTHLY;BYMONTHDAY=XX" "XX" (by rfl) (by rfl)).1

end Recurrence
